import Mathlib

/-!
# Verification of the claude-tmux session state inference engine

A shallow embedding, in Lean 4, of the session-state inference core of the
claude-tmux repository (package `internal/session`):

* the event-log fold of `ReadSessions` (`events.go`): per-line filtering,
  the lifecycle switch (`session-start` / `session-end` / default bootstrap
  and field-update policy), `applyEventStatus`, `parseTmuxTarget`,
  the pane-ownership dedup pass, and `RotateLog`;
* the terminal-content status classifier (`scanner.go`): `sanitizeLine`
  (ANSI-escape stripping and invisible-Unicode normalisation),
  `parseNumberedOption`, `detectNumberedOptions`, `detectPromptQuestion`
  and `detectStatus`.

Go strings are modelled as `List Char` (rune sequences) or `String`
as convenient; Go `int` and Unix timestamps as `Int`; the Go
`map[string]*Session` as an association list in insertion order.
File I/O is modelled by passing file content (`Option (List String)`:
`none` is an absent file) explicitly; the side effects of `RotateLog`
are modelled as a trace of file-system operations.
-/

namespace ClaudeTmux

/-- Go `unicode.IsSpace`: the Latin-1 space runes and the White_Space
property code points, exactly as in Go's `unicode` tables. -/
def isGoSpace (c : Char) : Bool :=
  c.toNat = 0x20 || (0x9 ≤ c.toNat && c.toNat ≤ 0xD) ||
  c.toNat = 0x85 || c.toNat = 0xA0 ||
  c.toNat = 0x1680 || (0x2000 ≤ c.toNat && c.toNat ≤ 0x200A) ||
  c.toNat = 0x2028 || c.toNat = 0x2029 || c.toNat = 0x202F ||
  c.toNat = 0x205F || c.toNat = 0x3000

/-- Go `strings.TrimSpace` on a rune sequence: drop Unicode white space
from both ends. -/
def trimSpace (l : List Char) : List Char :=
  ((l.dropWhile isGoSpace).reverse.dropWhile isGoSpace).reverse

/-- Go `strings.TrimSpace` on a `String`. -/
def trimSpaceS (s : String) : String :=
  String.mk (trimSpace s.data)

/-- Go `strings.HasPrefix` on rune sequences. -/
def hasPrefixL : List Char → List Char → Bool
  | [], _ => true
  | _ :: _, [] => false
  | a :: as, b :: bs => a = b && hasPrefixL as bs

/-- Go `strings.Contains needle hay` on rune sequences (substring search). -/
def containsSub (needle : List Char) : List Char → Bool
  | [] => needle.isEmpty
  | c :: rest => hasPrefixL needle (c :: rest) || containsSub needle rest

/-- Index (in runes) of the first occurrence of character `c`, if any.
Because the characters searched for below (`:`, `.`) are ASCII, rune
indices split the string at the same place as Go's byte indices. -/
def firstIdx (c : Char) : List Char → Option Nat
  | [] => none
  | a :: as => if a = c then some 0 else (firstIdx c as).map (· + 1)

/-- Index of the last occurrence of character `c`, if any
(Go `strings.LastIndex` for a one-rune separator). -/
def lastIdx (c : Char) (l : List Char) : Option Nat :=
  match firstIdx c l.reverse with
  | none => none
  | some i => some (l.length - 1 - i)

/-- Go `strconv.Atoi`: optional sign, at least one ASCII digit, nothing
else; on syntax error `(0, false)`; on 64-bit range error the clamped
bound with `false`, as `strconv.ParseInt` returns it. -/
def goAtoi (s : List Char) : Int × Bool :=
  let signed : Bool × List Char :=
    match s with
    | '+' :: rest => (false, rest)
    | '-' :: rest => (true, rest)
    | _ => (false, s)
  let neg := signed.1
  let ds := signed.2
  if ds.isEmpty then (0, false)
  else if ds.all Char.isDigit then
    let n : Nat := ds.foldl (fun a c => a * 10 + (c.toNat - 48)) 0
    let v : Int := if neg then -(n : Int) else (n : Int)
    if v < -(2 ^ 63) then (-(2 ^ 63), false)
    else if (2 ^ 63 - 1 : Int) < v then (2 ^ 63 - 1, false)
    else (v, true)
  else (0, false)

/-- Go `path/filepath.Base` (Unix): empty path is `"."`; trailing
separators are dropped; the last path element remains; all-separator
paths give `"/"`. -/
def basePath (p : List Char) : List Char :=
  if p.isEmpty then ['.']
  else
    let p1 := (p.reverse.dropWhile (fun c => c = '/')).reverse
    let p2 := (p1.reverse.takeWhile (fun c => c ≠ '/')).reverse
    if p2.isEmpty then ['/'] else p2

/-- `basePath` on `String`s (Go `filepath.Base`). -/
def basePathS (s : String) : String :=
  String.mk (basePath s.data)

/-- `Status` of a session. `session.go` declares the enumeration with
`StatusUnknown` as the zero value (`iota`), so `unknown` is the value a
bootstrapped record starts with; the events-based design adds `waiting`. -/
inductive Status where
  | unknown
  | idle
  | busy
  | waiting
deriving Repr, DecidableEq

/-- The `Session` record of the events-based design, with exactly the
fields `events.go` populates. `lastUpdate` holds the Unix timestamp the
Go code wraps in `time.Unix(ts, 0)` (comparison of such times is
comparison of the underlying seconds). -/
structure Session where
  sessionID : String
  claudePID : Int
  workDir : String
  projectName : String
  tmuxTarget : String
  tmuxSession : String
  windowIndex : Int
  paneIndex : Int
  status : Status
  action : String
  lastUpdate : Int
deriving Repr, DecidableEq

/-- `RawEvent`: one parsed JSON line of the event log (`events.go`). -/
structure RawEvent where
  timestamp : Int
  sessionID : String
  event : String
  pid : Int
  cwd : String
  tmuxInfo : String
  toolName : String
deriving Repr, DecidableEq

/-- Go `parseTmuxTarget`: split `"group:window.pane"` at the last colon,
then the remainder at the first dot; indices default to 0 when absent or
unparseable (`strconv.Atoi` errors ignored). -/
def parseTmuxTarget (target : List Char) : List Char × Int × Int :=
  if target.isEmpty then ([], 0, 0)
  else
    match lastIdx ':' target with
    | none => (target, 0, 0)
    | some colonIndex =>
      let sessionName := target.take colonIndex
      let remainder := target.drop (colonIndex + 1)
      match firstIdx '.' remainder with
      | none => (sessionName, (goAtoi remainder).1, 0)
      | some dotIndex =>
        (sessionName, (goAtoi (remainder.take dotIndex)).1,
          (goAtoi (remainder.drop (dotIndex + 1))).1)

/-- The session map `map[string]*Session`, modelled as an association
list in insertion order (new keys are appended; existing keys are
updated in place, preserving position). -/
def SessionMap := List (String × Session)
deriving DecidableEq

/-- Map lookup: first entry with the given key. -/
def mapLookup (k : String) : SessionMap → Option Session
  | [] => none
  | (k', v) :: rest => if k' = k then some v else mapLookup k rest

/-- Map insert/update: replace the entry with the given key in place,
or append a new entry. -/
def mapInsert (k : String) (v : Session) : SessionMap → SessionMap
  | [] => [(k, v)]
  | (k', v') :: rest =>
    if k' = k then (k, v) :: rest else (k', v') :: mapInsert k v rest

/-- Map erase (Go `delete`): remove the entry with the given key. -/
def mapErase (k : String) : SessionMap → SessionMap
  | [] => []
  | (k', v) :: rest =>
    if k' = k then mapErase k rest else (k', v) :: mapErase k rest

/-- Go `applyEventStatus` (`events.go`): the status/action switch. An
event kind outside the table leaves the session unchanged. -/
def applyEventStatus (s : Session) (e : RawEvent) : Session :=
  if e.event = "user-prompt-submit" then
    { s with status := .busy, action := "Thinking…" }
  else if e.event = "pre-tool-use" then
    { s with status := .busy,
             action := if e.toolName ≠ "" then e.toolName else s.action }
  else if e.event = "post-tool-use" ∨ e.event = "post-tool-use-failure" then
    { s with status := .busy, action := "" }
  else if e.event = "stop" then
    { s with status := .idle, action := "" }
  else if e.event = "permission-request" then
    { s with status := .waiting, action := "Permission" }
  else if e.event = "notification-idle" then
    { s with status := .idle, action := "" }
  else if e.event = "notification-permission" then
    { s with status := .waiting, action := "Permission" }
  else if e.event = "notification-elicitation" then
    { s with status := .waiting, action := "Input" }
  else s

/-- The record built by the `session-start` arm of `ReadSessions`:
all fields from the event, `Status: StatusIdle`, `LastUpdate: eventTime`;
`Action` is left at its zero value. -/
def sessionFromStart (e : RawEvent) : Session :=
  let parsed := parseTmuxTarget e.tmuxInfo.data
  { sessionID := e.sessionID
    claudePID := e.pid
    workDir := e.cwd
    projectName := basePathS e.cwd
    tmuxTarget := e.tmuxInfo
    tmuxSession := String.mk parsed.1
    windowIndex := parsed.2.1
    paneIndex := parsed.2.2
    status := .idle
    action := ""
    lastUpdate := e.timestamp }

/-- The minimal record the `default` arm of `ReadSessions` bootstraps for
an event naming an unknown session: identity and attachment fields from
the event, `Status`, `Action` and `LastUpdate` left at their zero
values. -/
def bootstrapSession (e : RawEvent) : Session :=
  let parsed := parseTmuxTarget e.tmuxInfo.data
  { sessionID := e.sessionID
    claudePID := e.pid
    workDir := e.cwd
    projectName := basePathS e.cwd
    tmuxTarget := e.tmuxInfo
    tmuxSession := String.mk parsed.1
    windowIndex := parsed.2.1
    paneIndex := parsed.2.2
    status := .unknown
    action := ""
    lastUpdate := 0 }

/-- The field updates the `default` arm of `ReadSessions` performs on
the (found or bootstrapped) record before `applyEventStatus`: refresh
`LastUpdate` from the event time, `WorkDir`/`ProjectName` when the event
carries a non-empty `cwd`, and `ClaudePID` when the event carries a
nonzero pid. `TmuxTarget` is intentionally not updated (`events.go`'s
comment). -/
def touchSession (s : Session) (e : RawEvent) : Session :=
  let s1 := { s with lastUpdate := e.timestamp }
  let s2 :=
    if e.cwd ≠ "" then
      { s1 with workDir := e.cwd, projectName := basePathS e.cwd }
    else s1
  if e.pid ≠ 0 then { s2 with claudePID := e.pid } else s2

/-- One iteration of the `switch event.Event` in `ReadSessions`, for an
event that already passed the empty-`sessionID` filter: `session-start`
installs a fresh record; `session-end` deletes; every other kind looks
up or bootstraps the record, applies the `touchSession` field updates
and then `applyEventStatus`. -/
def applyEvent (m : SessionMap) (e : RawEvent) : SessionMap :=
  if e.event = "session-start" then
    mapInsert e.sessionID (sessionFromStart e) m
  else if e.event = "session-end" then
    mapErase e.sessionID m
  else
    let s0 :=
      match mapLookup e.sessionID m with
      | some s => s
      | none => bootstrapSession e
    mapInsert e.sessionID (applyEventStatus (touchSession s0 e) e) m

/-- The per-line filtering of the `ReadSessions` scan loop: skip
whitespace-only lines, lines the JSON parser rejects (the parser is a
parameter — `encoding/json` itself is outside the model) and events with
an empty `sessionID`; all other lines feed `applyEvent`. -/
def processLine (parse : String → Option RawEvent) (m : SessionMap)
    (line : String) : SessionMap :=
  if trimSpaceS line = "" then m
  else
    match parse line with
    | none => m
    | some e => if e.sessionID = "" then m else applyEvent m e

/-- The whole scan loop of `ReadSessions`: fold the log's lines, in log
order, into a session map starting from empty. -/
def foldLines (parse : String → Option RawEvent) (lines : List String) :
    SessionMap :=
  lines.foldl (processLine parse) []

/-- Folding a list of already-parsed events (the "sessions implied by
the valid lines"). -/
def foldEvents (events : List RawEvent) : SessionMap :=
  events.foldl applyEvent []

/-- A line's contribution to the `ReadSessions` fold, as an optional
event: `none` for the lines the scan loop skips (whitespace-only,
JSON-rejected, empty `sessionID`). -/
def lineEvent (parse : String → Option RawEvent) (line : String) :
    Option RawEvent :=
  if trimSpaceS line = "" then none
  else
    match parse line with
    | none => none
    | some e => if e.sessionID = "" then none else some e

/-- The valid events of a log: the `RawEvent`s of the lines that are not
whitespace-only, parse, and carry a non-empty `sessionID`. -/
def validEvents (parse : String → Option RawEvent) (lines : List String) :
    List RawEvent :=
  lines.filterMap (lineEvent parse)

/-- The map-building phase of `ReadSessions` including the missing-file
case: `os.Open` failing with `IsNotExist` returns `nil, nil`, i.e. no
sessions; otherwise the lines are folded. -/
def readSessionsMap (parse : String → Option RawEvent) :
    Option (List String) → SessionMap
  | none => []
  | some lines => foldLines parse lines

/-- State of the dedup pass of `ReadSessions`: the surviving map and the
`tmuxTargetOwner` map (`TmuxTarget -> SessionID` of the best candidate). -/
structure DedupState where
  alive : SessionMap
  owner : List (String × String)
deriving DecidableEq

/-- Lookup in the owner map. -/
def ownerLookup (k : String) : List (String × String) → Option String
  | [] => none
  | (k', v) :: rest => if k' = k then some v else ownerLookup k rest

/-- Insert/update in the owner map. -/
def ownerInsert (k v : String) : List (String × String) → List (String × String)
  | [] => [(k, v)]
  | (k', v') :: rest =>
    if k' = k then (k, v) :: rest else (k', v') :: ownerInsert k v rest

/-- One iteration of the dedup loop of `ReadSessions`: sessions with an
empty `TmuxTarget` are skipped; the first claimant of a target becomes
its owner; a later claimant evicts the recorded owner exactly when its
`LastUpdate` is strictly greater (`time.After`), and is itself evicted
otherwise. The owner always names a surviving session, so the `none`
lookup arm below is unreachable (it is the Go nil-pointer case). -/
def dedupStep (st : DedupState) (entry : String × Session) : DedupState :=
  if entry.2.tmuxTarget = "" then st
  else
    match ownerLookup entry.2.tmuxTarget st.owner with
    | none =>
      { st with owner := ownerInsert entry.2.tmuxTarget entry.1 st.owner }
    | some existingID =>
      match mapLookup existingID st.alive with
      | none => st
      | some existingSession =>
        if existingSession.lastUpdate < entry.2.lastUpdate then
          { alive := mapErase existingID st.alive
            owner := ownerInsert entry.2.tmuxTarget entry.1 st.owner }
        else
          { st with alive := mapErase entry.1 st.alive }

/-- The dedup pass of `ReadSessions`. The Go code iterates over the map
while deleting; only already-visited entries are ever deleted, so
iterating over the initial entries is faithful (up to Go's unspecified
map order, which the model fixes to insertion order). -/
def dedupSessions (m : SessionMap) : SessionMap :=
  (m.foldl dedupStep { alive := m, owner := [] }).alive

/-- A file-system side effect of `RotateLog`. -/
inductive FsOp where
  | writeFile (path : String) (lines : List String)
  | renameFile (src dst : String)
deriving Repr, DecidableEq

/-- The file content `RotateLog` leaves behind, as a list of lines:
an absent file stays absent; at most 1000 lines stay untouched; above
that, exactly the last 500 lines survive, in order. -/
def rotateLogContent : Option (List String) → Option (List String)
  | none => none
  | some lines =>
    if lines.length ≤ 1000 then some lines
    else some (lines.drop (lines.length - 500))

/-- The trace of file-system writes `RotateLog` performs on a log at
`logPath`: nothing when the file is absent or has at most 1000 lines;
otherwise a single `os.WriteFile(logPath, ...)` of the kept lines.
There is no temporary file and no rename in the source. -/
def rotateLogOps (logPath : String) : Option (List String) → List FsOp
  | none => []
  | some lines =>
    if lines.length ≤ 1000 then []
    else [FsOp.writeFile logPath (lines.drop (lines.length - 500))]

/-- The write-temp-then-rename pattern §4.5 of the spec describes: some
write to a path other than the log is later renamed over the log. -/
def usesTempThenRename (logPath : String) (ops : List FsOp) : Prop :=
  ∃ i j tmp content, i < j ∧
    ops.get? i = some (FsOp.writeFile tmp content) ∧
    ops.get? j = some (FsOp.renameFile tmp logPath) ∧
    tmp ≠ logPath

/-- ASCII letter, the final byte class `[a-zA-Z]` of the ANSI pattern. -/
def isAsciiAlpha (c : Char) : Bool :=
  ('a' ≤ c && c ≤ 'z') || ('A' ≤ c && c ≤ 'Z')

/-- After `ESC [`, consume `[0-9;]*` followed by one ASCII letter;
`some rest` is the input after the match, `none` means the regex
`\x1b\[[0-9;]*[a-zA-Z]` does not match here. -/
def ansiBody : List Char → Option (List Char)
  | [] => none
  | c :: rest =>
    if c.isDigit || c = ';' then ansiBody rest
    else if isAsciiAlpha c then some rest
    else none

/-- Try to match the ANSI pattern at the start of `l` (which is the text
after an ESC character): a `[`, then `ansiBody`. -/
def matchAnsi : List Char → Option (List Char)
  | '[' :: rest => ansiBody rest
  | _ => none

/-- Fuel-indexed worker for `stripAnsi` (structural recursion on the
fuel, so that the definition computes in the kernel). Every step
consumes at least one character of the input, so fuel equal to the
input's length always suffices; `stripAnsi_fuel_irrel` below proves the
fuel is irrelevant once sufficient, and `stripAnsi_eq` recovers the
intended recursion. -/
def stripAnsiFuel : Nat → List Char → List Char
  | _, [] => []
  | 0, l => l
  | fuel + 1, c :: rest =>
    if c = '\x1b' then
      match matchAnsi rest with
      | some rest' => stripAnsiFuel fuel rest'
      | none => c :: stripAnsiFuel fuel rest
    else c :: stripAnsiFuel fuel rest

/-- `ansiEscapePattern.ReplaceAllString(line, "")`: remove every
leftmost-first non-overlapping match of `\x1b\[[0-9;]*[a-zA-Z]`. -/
def stripAnsi (l : List Char) : List Char :=
  stripAnsiFuel l.length l

/-- The rune switch of `sanitizeLine`: zero-width space/joiners and the
BOM are dropped, a non-breaking space becomes a plain space. -/
def sanitizeChar (c : Char) : Option Char :=
  if c.toNat = 0x200B || c.toNat = 0x200C || c.toNat = 0x200D ||
      c.toNat = 0xFEFF then none
  else if c.toNat = 0xA0 then some ' '
  else some c

/-- Go `sanitizeLine` (`scanner.go`): strip ANSI escapes, then filter
and normalise invisible runes. -/
def sanitizeLine (l : List Char) : List Char :=
  (stripAnsi l).filterMap sanitizeChar

/-- Go `strings.Split(s, "\n")` on runes: the pieces between newlines,
empty pieces included. -/
def splitLines : List Char → List (List Char)
  | [] => [[]]
  | c :: rest =>
    if c = '\n' then [] :: splitLines rest
    else
      match splitLines rest with
      | [] => [[c]]
      | piece :: pieces => (c :: piece) :: pieces

/-- Index of the first occurrence of `". "` (Go `strings.Index` with a
two-byte ASCII needle; rune index and byte index agree on whether the
occurrence is at position 0, which is all `parseNumberedOption` tests,
and the prefix taken before it is the same text). -/
def firstDotSpace : List Char → Option Nat
  | '.' :: ' ' :: _ => some 0
  | _ :: rest => (firstDotSpace rest).map (· + 1)
  | [] => none

/-- Go `parseNumberedOption` (`scanner.go`): trim leading space, strip an
optional `❯` selector prefix (plus following space), then require at
least one character, a first `". "` occurrence at index ≥ 1, and the
text before it to parse with `strconv.Atoi`. Returns
`some (optionNumber, hasSelector)` on a match. -/
def parseNumberedOption (line : List Char) : Option (Int × Bool) :=
  let t0 := line.dropWhile isGoSpace
  if t0.isEmpty then none
  else
    let hasSelector := hasPrefixL ['❯'] t0
    let t :=
      if hasPrefixL ['❯'] t0 then (t0.drop 1).dropWhile isGoSpace else t0
    match firstDotSpace t with
    | none => none
    | some dotIndex =>
      if dotIndex < 1 then none
      else
        let parsed := goAtoi (t.take dotIndex)
        if parsed.2 then some (parsed.1, hasSelector) else none

/-- Go `detectNumberedOptions` (`scanner.go`): across all lines, collect
the matched numbered options; require options 1 and 2 to be present and
at least one matched line to carry the `❯` selector. -/
def detectNumberedOptions (lines : List (List Char)) : Bool :=
  let parsed := lines.filterMap parseNumberedOption
  (parsed.any (fun p => p.1 = 1)) && (parsed.any (fun p => p.1 = 2)) &&
    (parsed.any (fun p => p.2))

/-- The permission-prompt phrase `detectPromptQuestion` looks for. -/
def questionPhrase : List Char := "Do you want to proceed?".data

/-- The inner check of `detectPromptQuestion`: among the (at most 5)
lines following the question line, options 1 and 2 both match
`parseNumberedOption` (selector not required). -/
def optionsNearby (nearby : List (List Char)) : Bool :=
  let parsed := nearby.filterMap parseNumberedOption
  (parsed.any (fun p => p.1 = 1)) && (parsed.any (fun p => p.1 = 2))

/-- Go `detectPromptQuestion` (`scanner.go`): some line whose trimmed
text contains the question phrase is followed, within the next 5 lines
(`lines[i+1 : min(len(lines), i+6)]`), by options 1 and 2. -/
def detectPromptQuestion : List (List Char) → Bool
  | [] => false
  | line :: rest =>
    (containsSub questionPhrase (trimSpace line) &&
      optionsNearby (rest.take 5)) || detectPromptQuestion rest

/-- `spinnerChars` (`scanner.go`): the activity-spinner glyphs. -/
def spinnerChars : List Char := ['✻', '✽', '✳', '·', '✶', '✢']

/-- The spinner test of the `detectStatus` line loop: the trimmed line
has at least 3 runes, starts with a spinner glyph followed by a space,
and its last rune is the ellipsis `…`. (The loop's `continue` on empty
trimmed lines is subsumed: an empty line cannot match.) -/
def isBusyLine (line : List Char) : Bool :=
  match trimSpace line with
  | a :: b :: c :: rest =>
    spinnerChars.contains a && b = ' ' &&
      (c :: rest).getLastD ' ' = '…'
  | _ => false

/-- The prompt test of the `detectStatus` line loop:
`strings.Contains(trimmedLine, "❯")`. -/
def isPromptLine (line : List Char) : Bool :=
  containsSub ['❯'] (trimSpace line)

/-- Go `detectStatus` (`scanner.go`, events-based design): empty capture
is Unknown; otherwise split into lines, sanitize each, scan for spinner
activity and a prompt glyph, then classify with the precedence
busy > numbered-menu waiting > prompt-question waiting > idle >
unknown. -/
def detectStatus (paneContent : List Char) : Status :=
  if paneContent.isEmpty then .unknown
  else
    let lines := (splitLines paneContent).map sanitizeLine
    let hasSpinnerActivity :=
      lines.foldl (fun acc line => acc || isBusyLine line) false
    let hasPrompt :=
      lines.foldl (fun acc line => acc || isPromptLine line) false
    if hasSpinnerActivity then .busy
    else if detectNumberedOptions lines then .waiting
    else if detectPromptQuestion lines then .waiting
    else if hasPrompt then .idle
    else .unknown

/-- `detectStatus` on a `String` pane capture. -/
def detectStatusS (paneContent : String) : Status :=
  detectStatus paneContent.data

/-- The sanitized line set `detectStatus` classifies over. -/
def classifierLines (paneContent : List Char) : List (List Char) :=
  (splitLines paneContent).map sanitizeLine

/-- Some sanitized line of the capture is an active spinner line. -/
def anyBusyLine (paneContent : List Char) : Bool :=
  (classifierLines paneContent).any isBusyLine

/-- Some sanitized line of the capture shows the prompt glyph. -/
def anyPromptLine (paneContent : List Char) : Bool :=
  (classifierLines paneContent).any isPromptLine

/-- Either Waiting pattern (numbered menu, or question fallback) matches
the sanitized lines of the capture. -/
def waitingPattern (paneContent : List Char) : Bool :=
  detectNumberedOptions (classifierLines paneContent) ||
    detectPromptQuestion (classifierLines paneContent)

/-- Spec-side Busy line pattern, following the spec's words: the
sanitized, trimmed line is non-empty, begins with one of the six spinner
glyphs followed by a space, and has the ellipsis as its last
character. -/
def busyLineSpec (sanitized : List Char) : Prop :=
  trimSpace sanitized ≠ [] ∧
  (∃ g ∈ spinnerChars, (trimSpace sanitized).head? = some g) ∧
  (trimSpace sanitized).get? 1 = some ' ' ∧
  (trimSpace sanitized).getLast? = some '…'

/-- Spec-side numbered-menu pattern, following the spec's words: options
1 and 2 are found via the numbered-option line pattern, and at least one
matched line carries the selector glyph. -/
def menuSpec (lines : List (List Char)) : Prop :=
  (∃ l ∈ lines, ∃ sel, parseNumberedOption l = some (1, sel)) ∧
  (∃ l ∈ lines, ∃ sel, parseNumberedOption l = some (2, sel)) ∧
  (∃ l ∈ lines, ∃ n, parseNumberedOption l = some (n, true))

/-- Spec-side permission-question fallback, following the spec's words:
some line contains the question phrase, and within the next 5 lines
options 1 and 2 both match the numbered-option pattern (selector not
required). -/
def questionSpec (lines : List (List Char)) : Prop :=
  ∃ i, ∃ h : i < lines.length,
    containsSub questionPhrase (trimSpace (lines.get ⟨i, h⟩)) = true ∧
    (∃ l ∈ (lines.drop (i + 1)).take 5, ∃ sel,
      parseNumberedOption l = some (1, sel)) ∧
    (∃ l ∈ (lines.drop (i + 1)).take 5, ∃ sel,
      parseNumberedOption l = some (2, sel))

/-- The status/action transition table of spec §4.2, transcribed from
the spec's words (for comparison against `applyEventStatus`): given the
previous (status, action) pair and the event's kind and tool name,
the pair the table prescribes. -/
def specStatusAction (prev : Status × String) (kind toolName : String) :
    Status × String :=
  if kind = "user-prompt-submit" then (.busy, "Thinking…")
  else if kind = "pre-tool-use" then
    (.busy, if toolName ≠ "" then toolName else prev.2)
  else if kind = "post-tool-use" ∨ kind = "post-tool-use-failure" then
    (.busy, "")
  else if kind = "stop" ∨ kind = "notification-idle" then (.idle, "")
  else if kind = "permission-request" ∨ kind = "notification-permission" then
    (.waiting, "Permission")
  else if kind = "notification-elicitation" then (.waiting, "Input")
  else prev

/-! ## Supporting lemmas -/

theorem ansiBody_length :
    ∀ l l', ansiBody l = some l' → l'.length < l.length := by
  intro l
  induction l with
  | nil => intro l' h; simp [ansiBody] at h
  | cons c rest ih =>
    intro l' h
    simp only [ansiBody] at h
    by_cases hd : (c.isDigit || c = ';') = true
    · simp [hd] at h
      have := ih l' h
      simpa using Nat.lt_succ_of_lt this
    · simp [hd] at h
      by_cases ha : isAsciiAlpha c = true
      · simp [ha] at h
        simp [← h]
      · simp [ha] at h

theorem matchAnsi_length :
    ∀ l l', matchAnsi l = some l' → l'.length < l.length := by
  intro l l' h
  rw [matchAnsi.eq_def] at h
  split at h
  · rename_i rest
    have := ansiBody_length rest l' h
    simp only [List.length_cons]
    omega
  · simp at h

theorem stripAnsiFuel_irrel :
    ∀ (n m : Nat) (l : List Char), l.length ≤ n → l.length ≤ m →
      stripAnsiFuel n l = stripAnsiFuel m l := by
  intro n
  induction n using Nat.strong_induction_on with
  | _ n ih =>
    intro m l hn hm
    match l with
    | [] =>
      cases n <;> cases m <;> rfl
    | c :: rest =>
      obtain ⟨nn, rfl⟩ : ∃ nn, n = nn + 1 :=
        ⟨n - 1, by simp only [List.length_cons] at hn; omega⟩
      obtain ⟨mm, rfl⟩ : ∃ mm, m = mm + 1 :=
        ⟨m - 1, by simp only [List.length_cons] at hm; omega⟩
      simp only [List.length_cons, Nat.succ_le_succ_iff] at hn hm
      simp only [stripAnsiFuel]
      by_cases hc : c = '\x1b'
      · simp only [hc, if_pos rfl]
        match hma : matchAnsi rest with
        | some rest' =>
          have hlen := matchAnsi_length rest rest' hma
          exact ih nn (by omega) mm rest' (by omega) (by omega)
        | none =>
          rw [ih nn (by omega) mm rest hn hm]
      · rw [if_neg hc, if_neg hc, ih nn (by omega) mm rest hn hm]

/-- `stripAnsi` satisfies the natural recursion of the regex
replacement: skip a character, or drop a whole `ESC [ [0-9;]* letter`
match and continue after it. -/
theorem stripAnsi_eq (l : List Char) :
    stripAnsi l =
      match l with
      | [] => []
      | c :: rest =>
        if c = '\x1b' then
          match matchAnsi rest with
          | some rest' => stripAnsi rest'
          | none => c :: stripAnsi rest
        else c :: stripAnsi rest := by
  match l with
  | [] => rfl
  | c :: rest =>
    simp only [stripAnsi, List.length_cons, stripAnsiFuel]
    by_cases hc : c = '\x1b'
    · simp only [hc, if_pos rfl]
      match hma : matchAnsi rest with
      | some rest' =>
        have := matchAnsi_length rest rest' hma
        exact stripAnsiFuel_irrel _ _ _ (by omega) (le_refl _)
      | none => rfl
    · rw [if_neg hc, if_neg hc]

theorem foldl_or_eq_any (f : α → Bool) :
    ∀ (l : List α) (b : Bool),
      l.foldl (fun acc x => acc || f x) b = (b || l.any f) := by
  intro l
  induction l with
  | nil => intro b; simp
  | cons x xs ih =>
    intro b
    simp only [List.foldl_cons, List.any_cons, ih, Bool.or_assoc]

theorem mapLookup_insert_self (k : String) (v : Session) (m : SessionMap) :
    mapLookup k (mapInsert k v m) = some v := by
  induction m with
  | nil => simp [mapInsert, mapLookup]
  | cons p rest ih =>
    obtain ⟨k', v'⟩ := p
    by_cases h : k' = k
    · simp [mapInsert, mapLookup, h]
    · simp [mapInsert, mapLookup, h, ih]

theorem mapLookup_insert_ne (k k' : String) (v : Session) (m : SessionMap)
    (h : k' ≠ k) : mapLookup k (mapInsert k' v m) = mapLookup k m := by
  induction m with
  | nil => simp [mapInsert, mapLookup, h]
  | cons p rest ih =>
    obtain ⟨k'', v''⟩ := p
    by_cases h2 : k'' = k'
    · simp [mapInsert, mapLookup, h2, h]
    · simp only [mapInsert, if_neg h2, mapLookup]
      by_cases h3 : k'' = k
      · simp [h3]
      · simp [h3, ih]

theorem mapLookup_erase_ne (k k' : String) (m : SessionMap)
    (h : k' ≠ k) : mapLookup k (mapErase k' m) = mapLookup k m := by
  induction m with
  | nil => rfl
  | cons p rest ih =>
    obtain ⟨k'', v''⟩ := p
    by_cases h2 : k'' = k'
    · subst h2
      have h3 : k'' ≠ k := fun hk => h (hk ▸ rfl)
      simp [mapErase, mapLookup, h3, ih]
    · by_cases h3 : k'' = k
      · have h4 : k ≠ k' := Ne.symm h
        simp [mapErase, mapLookup, h2, h3, h4]
      · simp [mapErase, mapLookup, h2, h3, ih]

theorem mapLookup_erase_self (k : String) (m : SessionMap) :
    mapLookup k (mapErase k m) = none := by
  induction m with
  | nil => rfl
  | cons p rest ih =>
    obtain ⟨k'', v''⟩ := p
    by_cases h2 : k'' = k
    · simp [mapErase, h2, ih]
    · simp [mapErase, mapLookup, h2, ih]

theorem touchSession_fields (s : Session) (e : RawEvent) :
    (touchSession s e).status = s.status ∧
    (touchSession s e).action = s.action ∧
    (touchSession s e).tmuxTarget = s.tmuxTarget ∧
    (touchSession s e).lastUpdate = e.timestamp ∧
    (touchSession s e).workDir = (if e.cwd ≠ "" then e.cwd else s.workDir) ∧
    (touchSession s e).claudePID =
      (if e.pid ≠ 0 then e.pid else s.claudePID) := by
  unfold touchSession
  refine ⟨?_, ?_, ?_, ?_, ?_, ?_⟩ <;> (split_ifs <;> rfl)

theorem applyEventStatus_fields (s : Session) (e : RawEvent) :
    (applyEventStatus s e).tmuxTarget = s.tmuxTarget ∧
    (applyEventStatus s e).lastUpdate = s.lastUpdate ∧
    (applyEventStatus s e).workDir = s.workDir ∧
    (applyEventStatus s e).claudePID = s.claudePID ∧
    (applyEventStatus s e).sessionID = s.sessionID := by
  simp only [applyEventStatus]
  split_ifs <;> simp

/-! ## Claims -/

/-- C7: `RotateLog` leaves an absent file alone; a log of at most 1000
lines is unchanged; a log of more than 1000 lines is rewritten to
exactly the last 500 lines of the original, in their original order
(for length N the lines with 0-based indices N−500 .. N−1, i.e. for
N = 1001 the 1-based lines 502 .. 1001). -/
theorem c7_rotate_retention :
    rotateLogContent none = none ∧
    ∀ lines : List String,
      (1000 < lines.length →
        rotateLogContent (some lines) =
          some (lines.drop (lines.length - 500)) ∧
        (lines.drop (lines.length - 500)).length = 500) ∧
      (lines.length ≤ 1000 → rotateLogContent (some lines) = some lines) := by
  refine ⟨rfl, fun lines => ⟨fun h => ⟨?_, ?_⟩, fun h => ?_⟩⟩
  · simp only [rotateLogContent]
    rw [if_neg (by omega)]
  · simp only [List.length_drop]
    omega
  · simp only [rotateLogContent]
    rw [if_pos h]

theorem c7_rotate_retention_witness :
    1000 < (List.replicate 1001 "x").length ∧
    rotateLogContent (some (List.replicate 1001 "x")) =
      some ((List.replicate 1001 "x").drop
        ((List.replicate 1001 "x").length - 500)) :=
  ⟨by simp only [List.length_replicate]; omega, ((c7_rotate_retention.2
    (List.replicate 1001 "x")).1 (by simp only [List.length_replicate]; omega)).1⟩

/-- C8 counterexample: on a concrete 1001-line log the write trace of
`RotateLog` is non-empty (a rotation does happen) yet contains no
write-temporary-then-rename pattern: the source rewrites the log with a
single direct `os.WriteFile` on the log path, contradicting the claim
that the retained lines are first written to a temporary file that is
then renamed over the log. -/
theorem c8_no_temp_rename_cx :
    rotateLogOps "events.log" (some (List.replicate 1001 "x")) ≠ [] ∧
    ¬ usesTempThenRename "events.log"
        (rotateLogOps "events.log" (some (List.replicate 1001 "x"))) := by
  have hops : rotateLogOps "events.log" (some (List.replicate 1001 "x")) =
      [FsOp.writeFile "events.log" ((List.replicate 1001 "x").drop 501)] := by
    simp only [rotateLogOps, List.length_replicate]
    norm_num
  constructor
  · rw [hops]
    exact List.cons_ne_nil _ _
  · rw [hops]
    rintro ⟨i, j, tmp, content, hij, hi, hj, hne⟩
    match j, hj with
    | 0, hj =>
      simp only [List.get?_cons_zero, Option.some.injEq] at hj
      exact FsOp.noConfusion hj
    | jj + 1, hj =>
      simp only [List.get?_cons_succ, List.get?_nil] at hj
      exact Option.noConfusion hj

/-- C8 amended: the retention rewrite of `RotateLog` is a single direct
`os.WriteFile` of the retained lines to the log path itself — no
temporary file and no rename — so a concurrent reader is not protected
from observing a partially written log. -/
theorem c8_single_direct_write (p : String) (lines : List String)
    (h : 1000 < lines.length) :
    rotateLogOps p (some lines) =
      [FsOp.writeFile p (lines.drop (lines.length - 500))] := by
  simp only [rotateLogOps]
  rw [if_neg (by omega)]

theorem c8_single_direct_write_witness :
    1000 < (List.replicate 1001 "x").length ∧
    rotateLogOps "log" (some (List.replicate 1001 "x")) =
      [FsOp.writeFile "log" ((List.replicate 1001 "x").drop
        ((List.replicate 1001 "x").length - 500))] :=
  ⟨by simp only [List.length_replicate]; omega, c8_single_direct_write "log"
    (List.replicate 1001 "x") (by simp only [List.length_replicate]; omega)⟩

theorem getLastD_eq_ellipsis_iff (c : Char) (l : List Char) :
    ((c :: l).getLastD ' ' = '…') ↔ ((c :: l).getLast? = some '…') := by
  rw [List.getLastD_eq_getLast?]
  cases h : (c :: l).getLast? with
  | none => simp [List.getLast?_eq_none_iff] at h
  | some x => simp

theorem isBusyLine_iff (l : List Char) :
    isBusyLine l = true ↔ busyLineSpec l := by
  unfold isBusyLine busyLineSpec
  cases htr : trimSpace l with
  | nil => simp
  | cons a tl =>
    cases tl with
    | nil => simp
    | cons b tl2 =>
      cases tl2 with
      | nil =>
        simp only [List.getLast?_cons_cons]
        constructor
        · intro h
          exact absurd h (by simp)
        · rintro ⟨-, -, h1, h2⟩
          simp only [List.get?_cons_succ, List.get?_cons_zero,
            Option.some.injEq] at h1
          simp only [List.getLast?_singleton, Option.some.injEq] at h2
          subst h1
          exact absurd h2 (by decide)
      | cons c rest =>
        simp only [Bool.and_eq_true, decide_eq_true_eq,
          getLastD_eq_ellipsis_iff, List.getLast?_cons_cons, ne_eq,
          List.cons_ne_nil, not_false_eq_true, true_and, List.head?_cons,
          List.get?_cons_succ, List.get?_cons_zero, Option.some.injEq,
          List.elem_iff]
        constructor
        · rintro ⟨⟨hmem, hsp⟩, hell⟩
          exact ⟨⟨a, hmem, rfl⟩, hsp, hell⟩
        · rintro ⟨⟨g, hmem, hg⟩, hsp, hell⟩
          subst hg
          exact ⟨⟨hmem, hsp⟩, hell⟩

theorem any_fst_eq_iff (n : Int) (ls : List (List Char)) :
    ((ls.filterMap parseNumberedOption).any (fun p => p.1 = n)) = true ↔
      ∃ l ∈ ls, ∃ sel, parseNumberedOption l = some (n, sel) := by
  simp only [List.any_eq_true, List.mem_filterMap, decide_eq_true_eq]
  constructor
  · rintro ⟨⟨pn, psel⟩, ⟨l, hl, hp⟩, hn⟩
    simp only at hn
    subst hn
    exact ⟨l, hl, psel, hp⟩
  · rintro ⟨l, hl, sel, hp⟩
    exact ⟨(n, sel), ⟨l, hl, hp⟩, rfl⟩

theorem any_sel_iff (ls : List (List Char)) :
    ((ls.filterMap parseNumberedOption).any (fun p => p.2)) = true ↔
      ∃ l ∈ ls, ∃ k, parseNumberedOption l = some (k, true) := by
  simp only [List.any_eq_true, List.mem_filterMap]
  constructor
  · rintro ⟨⟨pn, psel⟩, ⟨l, hl, hp⟩, hn⟩
    simp only at hn
    subst hn
    exact ⟨l, hl, pn, hp⟩
  · rintro ⟨l, hl, k, hp⟩
    exact ⟨(k, true), ⟨l, hl, hp⟩, rfl⟩

theorem optionsNearby_iff (nearby : List (List Char)) :
    optionsNearby nearby = true ↔
      ((∃ l ∈ nearby, ∃ sel, parseNumberedOption l = some (1, sel)) ∧
       (∃ l ∈ nearby, ∃ sel, parseNumberedOption l = some (2, sel))) := by
  unfold optionsNearby
  rw [Bool.and_eq_true, any_fst_eq_iff, any_fst_eq_iff]

theorem detectNumberedOptions_iff (lines : List (List Char)) :
    detectNumberedOptions lines = true ↔ menuSpec lines := by
  unfold detectNumberedOptions menuSpec
  rw [Bool.and_eq_true, Bool.and_eq_true, any_fst_eq_iff, any_fst_eq_iff,
    any_sel_iff, and_assoc]

theorem detectPromptQuestion_iff (lines : List (List Char)) :
    detectPromptQuestion lines = true ↔ questionSpec lines := by
  induction lines with
  | nil =>
    simp only [detectPromptQuestion, questionSpec]
    constructor
    · intro h; exact absurd h (by simp)
    · rintro ⟨i, hi, -⟩
      exact absurd hi (by simp)
  | cons line rest ih =>
    unfold detectPromptQuestion
    rw [Bool.or_eq_true, Bool.and_eq_true, ih, optionsNearby_iff]
    constructor
    · rintro (⟨hq, h1, h2⟩ | ⟨i, hi, hq, h1, h2⟩)
      · exact ⟨0, by simp, hq, h1, h2⟩
      · exact ⟨i + 1, by simpa using Nat.succ_lt_succ hi, hq, h1, h2⟩
    · rintro ⟨i, hi, hq, h1, h2⟩
      cases i with
      | zero => exact Or.inl ⟨hq, h1, h2⟩
      | succ j =>
        exact Or.inr ⟨j, by simpa using hi, hq, h1, h2⟩

theorem if_waiting_merge (A B : Bool) (w x : Status) :
    (if A then w else if B then w else x) = (if (A || B) then w else x) := by
  cases A <;> cases B <;> simp

theorem detectStatus_classify (s : List Char) :
    detectStatus s =
      if anyBusyLine s then Status.busy
      else if waitingPattern s then Status.waiting
      else if anyPromptLine s then Status.idle
      else Status.unknown := by
  by_cases hs : s.isEmpty
  · have hnil : s = [] := List.isEmpty_iff.mp hs
    subst hnil
    decide
  · simp only [detectStatus, hs, Bool.false_eq_true, if_false,
      foldl_or_eq_any, Bool.false_or]
    rw [if_waiting_merge]
    rfl

/-- C2: `detectStatus` applies the strict precedence
Busy > Waiting > Idle > Unknown over the sanitized lines: an active
spinner line forces Busy even when a numbered-menu/permission-question
pattern (and a prompt glyph) are also present; a Waiting pattern without
a spinner line yields Waiting even with a visible prompt glyph; a prompt
glyph alone yields Idle; empty input or input matching no pattern yields
Unknown. Concretely, a capture with both a spinner line and a numbered
menu is Busy, and the empty capture is Unknown. -/
theorem c2_precedence :
    (∀ s : List Char,
      detectStatus s =
        if anyBusyLine s then Status.busy
        else if waitingPattern s then Status.waiting
        else if anyPromptLine s then Status.idle
        else Status.unknown) ∧
    detectStatusS "✻ Running…\n❯ 1. Yes\n  2. No" = Status.busy ∧
    detectStatusS "" = Status.unknown :=
  ⟨detectStatus_classify, by decide, by decide⟩

/-- C3: `detectStatus` returns Busy exactly when some sanitized,
trimmed, non-empty line begins with one of the six spinner glyphs
followed by a space and ends with the ellipsis glyph; in particular
`"✻ Doing thing…"` is Busy while `"✻ Worked for 2m 17s"` (same leading
glyph, no trailing ellipsis, no other signal) is Unknown. -/
theorem c3_busy_iff :
    (∀ s : List Char,
      detectStatus s = Status.busy ↔
        ∃ line ∈ classifierLines s, busyLineSpec line) ∧
    detectStatusS "✻ Doing thing…" = Status.busy ∧
    detectStatusS "✻ Worked for 2m 17s" = Status.unknown := by
  refine ⟨fun s => ?_, by decide, by decide⟩
  rw [detectStatus_classify s]
  constructor
  · intro h
    by_cases hb : anyBusyLine s
    · obtain ⟨l, hl, hbl⟩ := List.any_eq_true.mp hb
      exact ⟨l, hl, (isBusyLine_iff l).mp hbl⟩
    · rw [if_neg hb] at h
      split_ifs at h
  · rintro ⟨l, hl, hspec⟩
    have hb : anyBusyLine s = true :=
      List.any_eq_true.mpr ⟨l, hl, (isBusyLine_iff l).mpr hspec⟩
    rw [if_pos hb]

/-- C4: with no busy spinner line present, `detectStatus` returns
Waiting exactly when the numbered-menu pattern (options 1 and 2, at
least one matched line carrying the `❯` selector) or the
permission-question fallback (the question phrase followed within 5
lines by options 1 and 2, selector not required) matches; a
markdown-style numbered list with no selector and no question phrase
plus a prompt glyph on an unrelated line yields Idle, not Waiting. -/
theorem c4_waiting_iff :
    (∀ s : List Char,
      detectStatus s = Status.waiting ↔
        (anyBusyLine s = false ∧
          (menuSpec (classifierLines s) ∨
            questionSpec (classifierLines s)))) ∧
    detectStatusS "1. First\n2. Second\n❯" = Status.idle := by
  refine ⟨fun s => ?_, by decide⟩
  rw [detectStatus_classify s]
  by_cases hb : anyBusyLine s
  · rw [if_pos hb]
    simp [hb]
  · rw [if_neg hb]
    simp only [Bool.not_eq_true] at hb
    by_cases hw : waitingPattern s
    · rw [if_pos hw]
      unfold waitingPattern at hw
      rw [Bool.or_eq_true, detectNumberedOptions_iff,
        detectPromptQuestion_iff] at hw
      simp [hb, hw]
    · rw [if_neg hw]
      unfold waitingPattern at hw
      rw [Bool.or_eq_true, detectNumberedOptions_iff,
        detectPromptQuestion_iff] at hw
      split_ifs <;> simp_all

theorem applyEventStatus_spec (s : Session) (e : RawEvent) :
    ((applyEventStatus s e).status, (applyEventStatus s e).action) =
      specStatusAction (s.status, s.action) e.event e.toolName := by
  unfold applyEventStatus specStatusAction
  split_ifs <;> simp_all

theorem applyEvent_lookup_other (m : SessionMap) (e : RawEvent)
    (sid : String) (h : e.sessionID ≠ sid) :
    mapLookup sid (applyEvent m e) = mapLookup sid m := by
  unfold applyEvent
  by_cases h1 : e.event = "session-start"
  · rw [if_pos h1]
    exact mapLookup_insert_ne _ _ _ _ h
  · rw [if_neg h1]
    by_cases h2 : e.event = "session-end"
    · rw [if_pos h2]
      exact mapLookup_erase_ne _ _ _ h
    · rw [if_neg h2]
      exact mapLookup_insert_ne _ _ _ _ h

theorem applyEvent_default_target (m : SessionMap) (e : RawEvent)
    (s : Session) (hns : e.event ≠ "session-start")
    (hne : e.event ≠ "session-end")
    (hm : mapLookup e.sessionID m = some s) :
    ∃ t, mapLookup e.sessionID (applyEvent m e) = some t ∧
      t.tmuxTarget = s.tmuxTarget := by
  unfold applyEvent
  rw [if_neg hns, if_neg hne, hm]
  refine ⟨_, mapLookup_insert_self _ _ _, ?_⟩
  rw [(applyEventStatus_fields _ e).1]
  exact (touchSession_fields s e).2.2.1

/-- C1: in the `ReadSessions` fold, once a session's record exists with
some `TmuxTarget` (set by its creation — a `session-start` event or the
first-seen bootstrap of an unknown ID), no later events for that session
other than `session-start`/`session-end` ever change the stored
`TmuxTarget`, even when they carry a different non-empty tmux value
(events for other session IDs cannot change it either). -/
theorem c1_attachment_target_frozen (m : SessionMap) (sid : String)
    (s : Session) (es : List RawEvent)
    (hm : mapLookup sid m = some s)
    (hes : ∀ e ∈ es, e.sessionID = sid →
      e.event ≠ "session-start" ∧ e.event ≠ "session-end") :
    ∃ s', mapLookup sid (es.foldl applyEvent m) = some s' ∧
      s'.tmuxTarget = s.tmuxTarget := by
  induction es generalizing m s with
  | nil => exact ⟨s, hm, rfl⟩
  | cons e rest ih =>
    rw [List.foldl_cons]
    by_cases hsid : e.sessionID = sid
    · obtain ⟨hns, hne⟩ := hes e (List.mem_cons_self e rest) hsid
      obtain ⟨t, ht, htt⟩ :=
        applyEvent_default_target m e s hns hne (by rw [hsid]; exact hm)
      rw [hsid] at ht
      obtain ⟨s', hs', hts⟩ := ih (applyEvent m e) t ht
        (fun e' he' => hes e' (List.mem_cons_of_mem _ he'))
      exact ⟨s', hs', by rw [hts, htt]⟩
    · have heq := applyEvent_lookup_other m e sid hsid
      exact ih (applyEvent m e) s (by rw [heq]; exact hm)
        (fun e' he' => hes e' (List.mem_cons_of_mem _ he'))

/-- Concrete session for the fold witnesses: attached at `work:1.0`. -/
def sessA : Session :=
  ⟨"A", 42, "/proj/a", "a", "work:1.0", "work", 1, 0, .idle, "", 100⟩

/-- Concrete later event for session `"A"` carrying a different
non-empty tmux target. -/
def evLater : RawEvent :=
  ⟨200, "A", "pre-tool-use", 42, "/proj/a", "other:9.9", "Bash"⟩

theorem c1_attachment_target_frozen_witness :
    mapLookup "A" [("A", sessA)] = some sessA ∧
    (∀ e ∈ [evLater], e.sessionID = "A" →
      e.event ≠ "session-start" ∧ e.event ≠ "session-end") ∧
    ∃ s', mapLookup "A" ([evLater].foldl applyEvent [("A", sessA)]) =
        some s' ∧ s'.tmuxTarget = sessA.tmuxTarget :=
  ⟨by decide, by decide,
    c1_attachment_target_frozen [("A", sessA)] "A" sessA [evLater]
      (by decide) (by decide)⟩

/-- C5: for every event applied to an existing session record, the fold
updates status and action exactly per the spec's transition table
(`specStatusAction`), refreshes `lastUpdate` from the event, refreshes
`workingDirectory` exactly when the event carries a non-empty one and
`ownerPID` exactly when the event carries a nonzero one, and leaves the
attachment target unchanged; unrecognized kinds leave status and action
unchanged (the `prev` arm of the table). -/
theorem c5_transition_table (m : SessionMap) (sid : String) (s : Session)
    (e : RawEvent) (hm : mapLookup sid m = some s)
    (hsid : e.sessionID = sid) (hns : e.event ≠ "session-start")
    (hne : e.event ≠ "session-end") :
    ∃ r, mapLookup sid (applyEvent m e) = some r ∧
      (r.status, r.action) =
        specStatusAction (s.status, s.action) e.event e.toolName ∧
      r.lastUpdate = e.timestamp ∧
      r.workDir = (if e.cwd ≠ "" then e.cwd else s.workDir) ∧
      r.claudePID = (if e.pid ≠ 0 then e.pid else s.claudePID) ∧
      r.tmuxTarget = s.tmuxTarget := by
  unfold applyEvent
  rw [if_neg hns, if_neg hne, hsid, hm]
  refine ⟨_, mapLookup_insert_self _ _ _, ?_, ?_, ?_, ?_, ?_⟩
  · rw [applyEventStatus_spec, (touchSession_fields s e).1,
      (touchSession_fields s e).2.1]
  · rw [(applyEventStatus_fields _ e).2.1,
      (touchSession_fields s e).2.2.2.1]
  · rw [(applyEventStatus_fields _ e).2.2.1,
      (touchSession_fields s e).2.2.2.2.1]
  · rw [(applyEventStatus_fields _ e).2.2.2.1,
      (touchSession_fields s e).2.2.2.2.2]
  · rw [(applyEventStatus_fields _ e).1,
      (touchSession_fields s e).2.2.1]

theorem c5_transition_table_witness :
    mapLookup "A" [("A", sessA)] = some sessA ∧
    evLater.sessionID = "A" ∧ evLater.event ≠ "session-start" ∧
    evLater.event ≠ "session-end" ∧
    ∃ r, mapLookup "A" (applyEvent [("A", sessA)] evLater) = some r ∧
      (r.status, r.action) =
        specStatusAction (sessA.status, sessA.action) evLater.event
          evLater.toolName ∧
      r.lastUpdate = evLater.timestamp ∧
      r.workDir = (if evLater.cwd ≠ "" then evLater.cwd else sessA.workDir) ∧
      r.claudePID =
        (if evLater.pid ≠ 0 then evLater.pid else sessA.claudePID) ∧
      r.tmuxTarget = sessA.tmuxTarget :=
  ⟨by decide, by decide, by decide, by decide,
    c5_transition_table [("A", sessA)] "A" sessA evLater (by decide)
      (by decide) (by decide) (by decide)⟩

theorem processLine_eq (parse : String → Option RawEvent)
    (m : SessionMap) (line : String) :
    processLine parse m line =
      match lineEvent parse line with
      | none => m
      | some e => applyEvent m e := by
  unfold processLine lineEvent
  split_ifs with h
  · rfl
  · cases parse line with
    | none => rfl
    | some e =>
      by_cases he : e.sessionID = ""
      · simp [he]
      · simp [he]

theorem foldLines_eq_foldEvents_aux (parse : String → Option RawEvent) :
    ∀ (lines : List String) (m : SessionMap),
      lines.foldl (processLine parse) m =
        (validEvents parse lines).foldl applyEvent m := by
  intro lines
  induction lines with
  | nil => intro m; rfl
  | cons l rest ih =>
    intro m
    rw [List.foldl_cons]
    unfold validEvents
    rw [List.filterMap_cons]
    cases hle : lineEvent parse l with
    | none =>
      rw [processLine_eq, hle]
      exact ih m
    | some e =>
      rw [processLine_eq, hle, List.foldl_cons]
      exact ih (applyEvent m e)

/-- C9: robustness of the `ReadSessions` scan: a missing log file yields
no sessions; the fold of the raw lines equals the fold of exactly the
valid events (non-blank, parsed, non-empty `sessionID`) in log order —
so empty sessionIDs never materialize a session; and inserting a bad
line (whitespace-only, or rejected by the parser, or carrying an empty
`sessionID`) anywhere in the log leaves the result untouched. -/
theorem c9_malformed_robustness :
    (∀ parse : String → Option RawEvent, readSessionsMap parse none = []) ∧
    (∀ (parse : String → Option RawEvent) (lines : List String),
      foldLines parse lines = foldEvents (validEvents parse lines)) ∧
    (∀ (parse : String → Option RawEvent) (l1 l2 : List String)
      (junk : String),
      (trimSpaceS junk = "" ∨ parse junk = none ∨
        (∀ e, parse junk = some e → e.sessionID = "")) →
      foldLines parse (l1 ++ junk :: l2) = foldLines parse (l1 ++ l2)) := by
  refine ⟨fun _ => rfl,
    fun parse lines => foldLines_eq_foldEvents_aux parse lines [], ?_⟩
  intro parse l1 l2 junk hjunk
  unfold foldLines
  rw [List.foldl_append, List.foldl_append, List.foldl_cons]
  congr 1
  rw [processLine_eq]
  have hnone : lineEvent parse junk = none := by
    unfold lineEvent
    rcases hjunk with h | h | h
    · rw [if_pos h]
    · split_ifs
      · rfl
      · rw [h]
    · split_ifs with ht
      · rfl
      · cases hp : parse junk with
        | none => rfl
        | some e => simp [h e hp]
  rw [hnone]

theorem c9_malformed_robustness_witness :
    ((fun _ : String => (none : Option RawEvent)) "notjson" = none) ∧
    foldLines (fun _ => none) (["a"] ++ "notjson" :: ["b"]) =
      foldLines (fun _ => none) (["a"] ++ ["b"]) :=
  ⟨rfl, c9_malformed_robustness.2.2 (fun _ => none) ["a"] ["b"] "notjson"
    (Or.inr (Or.inl rfl))⟩

/-- C10: after a `session-end` event deletes a session, any later event
for the same ID whose kind is neither `session-start` nor `session-end`
re-creates the session as a freshly bootstrapped record: attachment
target, working directory and owner pid taken from that later event,
status starting at its zero value (`unknown`) with the event's own
status effect then applied, and `lastUpdate` set to the event's time —
so deletion by `session-end` is not permanent while later events for the
same ID remain in the log. -/
theorem c10_recreate_after_end (m : SessionMap) (eEnd e : RawEvent)
    (hEnd : eEnd.event = "session-end")
    (hsid : eEnd.sessionID = e.sessionID)
    (hns : e.event ≠ "session-start") (hne : e.event ≠ "session-end") :
    mapLookup e.sessionID (applyEvent (applyEvent m eEnd) e) =
      some (applyEventStatus
        { bootstrapSession e with lastUpdate := e.timestamp } e) := by
  have h1 : applyEvent m eEnd = mapErase eEnd.sessionID m := by
    unfold applyEvent
    rw [if_neg (by rw [hEnd]; decide), if_pos hEnd]
  rw [h1]
  unfold applyEvent
  rw [if_neg hns, if_neg hne, hsid, mapLookup_erase_self,
    mapLookup_insert_self]
  have h2 : touchSession (bootstrapSession e) e =
      { bootstrapSession e with lastUpdate := e.timestamp } := by
    unfold touchSession bootstrapSession
    split_ifs <;> rfl
  rw [h2]

theorem c10_recreate_after_end_witness :
    (RawEvent.mk 150 "A" "session-end" 0 "" "" "").event = "session-end" ∧
    (RawEvent.mk 150 "A" "session-end" 0 "" "" "").sessionID =
      evLater.sessionID ∧
    evLater.event ≠ "session-start" ∧ evLater.event ≠ "session-end" ∧
    mapLookup evLater.sessionID
      (applyEvent (applyEvent [("A", sessA)]
        (RawEvent.mk 150 "A" "session-end" 0 "" "" "")) evLater) =
      some (applyEventStatus
        { bootstrapSession evLater with lastUpdate := evLater.timestamp }
        evLater) :=
  ⟨rfl, rfl, by decide, by decide,
    c10_recreate_after_end [("A", sessA)]
      (RawEvent.mk 150 "A" "session-end" 0 "" "" "") evLater rfl rfl
      (by decide) (by decide)⟩

/-- C6: the dedup pass keeps at most one claimant per non-empty
attachment target: of two sessions under distinct keys with the same
non-empty `TmuxTarget`, exactly the one with the strictly greater
`lastUpdate` survives (on a tie the first-encountered one survives,
matching the code); two sessions with distinct targets, or with empty
targets, are both kept. -/
theorem c6_dedup_by_target (k1 k2 : String) (s1 s2 : Session)
    (hk : k1 ≠ k2) :
    dedupSessions [(k1, s1), (k2, s2)] =
      if s1.tmuxTarget ≠ "" ∧ s2.tmuxTarget = s1.tmuxTarget then
        (if s1.lastUpdate < s2.lastUpdate then [(k2, s2)] else [(k1, s1)])
      else [(k1, s1), (k2, s2)] := by
  have hk2 : k2 ≠ k1 := Ne.symm hk
  unfold dedupSessions
  rw [List.foldl_cons, List.foldl_cons, List.foldl_nil]
  by_cases h1 : s1.tmuxTarget = ""
  · by_cases h2 : s2.tmuxTarget = ""
    · simp [dedupStep, h1, h2]
    · rw [if_neg (by rw [not_and]; intro hc; exact absurd h1 hc)]
      simp [dedupStep, h1, h2, ownerLookup]
  · by_cases h2 : s2.tmuxTarget = ""
    · rw [if_neg (by rintro ⟨-, hc⟩; rw [h2] at hc; exact h1 hc.symm)]
      simp [dedupStep, h1, h2, ownerLookup]
    · by_cases h3 : s2.tmuxTarget = s1.tmuxTarget
      · rw [if_pos ⟨h1, h3⟩]
        by_cases h4 : s1.lastUpdate < s2.lastUpdate
        · rw [if_pos h4]
          simp [dedupStep, h1, h2, h3, h4, ownerLookup, ownerInsert,
            mapLookup, mapErase, hk2]
        · rw [if_neg h4]
          simp [dedupStep, h1, h2, h3, h4, ownerLookup, ownerInsert,
            mapLookup, mapErase, hk, hk2]
      · rw [if_neg (by rintro ⟨-, hc⟩; exact h3 hc)]
        have h3s : s1.tmuxTarget ≠ s2.tmuxTarget := fun hc => h3 hc.symm
        simp [dedupStep, h1, h2, h3s, ownerLookup, ownerInsert]

/-- Concrete sessions for the dedup witness: same non-empty pane target,
the second one more recent. -/
def dupOld : Session :=
  ⟨"s1", 1, "/p", "p", "w:0.0", "w", 0, 0, .idle, "", 100⟩

/-- See `dupOld`. -/
def dupNew : Session :=
  ⟨"s2", 2, "/p", "p", "w:0.0", "w", 0, 0, .busy, "", 200⟩

theorem c6_dedup_by_target_witness :
    ("a" : String) ≠ "b" ∧
    dedupSessions [("a", dupOld), ("b", dupNew)] = [("b", dupNew)] := by
  refine ⟨by decide, ?_⟩
  have h := c6_dedup_by_target "a" "b" dupOld dupNew (by decide)
  rw [h, if_pos (by decide), if_pos (by decide)]

end ClaudeTmux
